import Mathlib

set_option maxRecDepth 4000

/-!
Shallow embedding of the artifact extraction / stitching / filename-resolution
pipeline of the claude-browser-extension repository.

Conventions of the embedding:
* JavaScript strings are Lean `String`s; character-level operations work on
  `String.data` (a `List Char`) with structural recursion so that everything
  evaluates in the kernel.
* A JS `Date` is modelled by its epoch-milliseconds value together with its
  ISO-8601 rendering (the only two observations the source makes of a date).
* A JS `Set` of used names is modelled by a `List String` threaded through in
  state-passing style; `set.add` conses, `set.has` is list membership.
* DOM elements are modelled by records of the query results the source reads
  from them; an element handle whose reads throw is an `Except.error` value,
  mirroring the try/catch structure of the source.
* Impure reads of the clock (`Date.now()`, `new Date()`) and of `Math.random()`
  become explicit parameters.
-/

/-- Artifact types, from the `ArtifactType` enum in `shared/models/artifact.ts`. -/
inductive ArtifactType where
  | code
  | svg
  | markdown
  | mermaid
  | html
  | react
  | unknown
deriving DecidableEq, Repr

/-- String value of an `ArtifactType` enum member (used in template-literal keys). -/
def ArtifactType.str : ArtifactType → String
  | .code => "code"
  | .svg => "svg"
  | .markdown => "markdown"
  | .mermaid => "mermaid"
  | .html => "html"
  | .react => "react"
  | .unknown => "unknown"

/-- A JS `Date`: epoch milliseconds plus its ISO-8601 rendering. -/
structure Date where
  epochMs : Nat
  iso : String
deriving DecidableEq, Repr

/-- The `Artifact`/`ArtifactState` record of `shared/models/artifact.ts` (first
declaration). Metadata fields the pipeline never reads (`messageId`,
`conversationId`, `previousState`) are elided. -/
structure ArtifactState where
  id : String
  title : String
  type : ArtifactType
  content : String
  language : Option String
  timestamp : Date
deriving DecidableEq, Repr

/-- The second `Artifact` interface of `shared/models/artifact.ts` (string
timestamp, series fields). A missing or empty (falsy) `timestamp` string is
modelled as `none`. -/
structure Artifact2 where
  id : String
  title : String
  content : String
  type : ArtifactType
  language : Option String
  timestamp : Option Date
  partOfSeries : Option Bool
  seriesPosition : Option Nat
  seriesTotal : Option Nat
deriving DecidableEq, Repr

/-- Character-level string helpers mirroring the JS string operations used by
the source. A maximal run of characters satisfying `bad` is replaced by a
single underscore once `inRun` is `false` (JS `str.replace(/[bad]+/g, "_")`). -/
def collapseRunsAux (bad : Char → Bool) (inRun : Bool) : List Char → List Char
  | [] => []
  | c :: rest =>
    if bad c then
      if inRun then collapseRunsAux bad true rest
      else '_' :: collapseRunsAux bad true rest
    else c :: collapseRunsAux bad false rest

/-- Replace every maximal run of characters satisfying `bad` by one `'_'`. -/
def collapseRuns (bad : Char → Bool) (l : List Char) : List Char :=
  collapseRunsAux bad false l

/-- Replace every single character satisfying `bad` by `'_'`
(JS `str.replace(/[bad]/g, "_")`, no `+`). -/
def replaceEachChar (bad : Char → Bool) (l : List Char) : List Char :=
  l.map (fun c => if bad c then '_' else c)

/-- Remove every character satisfying `bad` (JS `str.replace(/[bad]/g, "")`). -/
def removeEachChar (bad : Char → Bool) (l : List Char) : List Char :=
  l.filter (fun c => !bad c)

/-- JS `String.prototype.trim` (whitespace at both ends). -/
def jsTrim (s : String) : String :=
  ⟨((s.data.dropWhile Char.isWhitespace).reverse.dropWhile Char.isWhitespace).reverse⟩

/-- Drop a run of characters satisfying `p` from both ends
(JS `str.replace(/^[p]+/, "").replace(/[p]+$/, "")`). -/
def dropEnds (p : Char → Bool) (l : List Char) : List Char :=
  ((l.dropWhile p).reverse.dropWhile p).reverse

/-- ASCII lowercasing of one character (JS `toLowerCase` on the ASCII range). -/
def toLowerChar (c : Char) : Char :=
  if 'A' ≤ c && c ≤ 'Z' then Char.ofNat (c.toNat + 32) else c

/-- ASCII lowercasing (JS `String.prototype.toLowerCase`). -/
def toLowerAscii (s : String) : String :=
  ⟨s.data.map toLowerChar⟩

/-- JS `String.prototype.split(sep)` for a one-character separator. -/
def splitOnChar (sep : Char) : List Char → List (List Char)
  | [] => [[]]
  | c :: rest =>
    if c = sep then [] :: splitOnChar sep rest
    else
      match splitOnChar sep rest with
      | [] => [[c]]
      | p :: ps => (c :: p) :: ps

/-- JS `Array.prototype.join(sep)`. -/
def joinWith (sep : String) : List String → String
  | [] => ""
  | [s] => s
  | s :: rest => s ++ sep ++ joinWith sep rest

/-- Word characters of the regex class `[\w\-._]` in `editor.ts`. -/
def isWordChar (c : Char) : Bool :=
  c.isAlphanum || c = '_' || c = '-' || c = '.'

/-- The title sanitization `title.replace(/[^\w\-._]+/g, "_")` of
`getUniqueFileName` in `shared/models/editor.ts`. -/
def sanitizeTitle (title : String) : String :=
  ⟨collapseRuns (fun c => !isWordChar c) title.data⟩

/-- The `getFileExtension` language table of `shared/models/editor.ts`
(`map[language.toLowerCase()] || ".txt"`). -/
def getFileExtension (language : String) : String :=
  match toLowerAscii language with
  | "js" => ".js"
  | "python" => ".py"
  | "java" => ".java"
  | "txt" => ".txt"
  | _ => ".txt"

/-- The `inferDirectoryStructure` function of `shared/models/editor.ts`; its
`messageIndex` parameter defaults to `null` (`none`) at the call site. -/
def inferDirectoryStructure (baseName extension : String) (messageIndex : Option Nat) : String :=
  let parts := (splitOnChar '/' baseName.data).map (fun p => (⟨p⟩ : String))
  let fileName := (parts.getLast?.getD "") ++ extension
  let directory := joinWith "/" parts.dropLast
  match messageIndex with
  | some i => directory ++ "/" ++ Nat.repr (i + 1) ++ "_" ++ fileName
  | none => directory ++ "/" ++ fileName

/-- The collision suffix of `getUniqueFileName`: the loop tries `""`, then
`"_*"`, `"_**"`, ... (`suffix = "_" + "*".repeat(suffixCount++)`). -/
def suffixStr : Nat → String
  | 0 => ""
  | k + 1 => "_" ++ (⟨List.replicate (k + 1) '*'⟩ : String)

/-- The `while (usedNames.has(fileName + suffix))` loop of `getUniqueFileName`,
made total with explicit fuel; with fuel `usedNames.length + 1` the loop always
finds a fresh candidate first (proved below), so the fuel bound is never hit. -/
def findName (used : List String) (base : String) : Nat → Nat → String
  | cnt, 0 => base ++ suffixStr cnt
  | cnt, fuel + 1 =>
    if base ++ suffixStr cnt ∈ used then findName used base (cnt + 1) fuel
    else base ++ suffixStr cnt

/-- The flat-mode candidate name `` `${messageIndex + 1}_${baseName}${extension}` ``
built by `getUniqueFileName` before collision resolution. -/
def flatFileName (title language : String) (messageIndex : Nat) : String :=
  Nat.repr (messageIndex + 1) ++ "_" ++ sanitizeTitle title ++ getFileExtension language

/-- The `getUniqueFileName` function of `shared/models/editor.ts`. The mutable
`usedNames` set is threaded in state-passing style: the result pairs the chosen
file name with the updated set. -/
def getUniqueFileName (title language : String) (messageIndex : Nat)
    (usedNames : List String) (useDirectoryStructure : Bool) : String × List String :=
  let baseName := sanitizeTitle title
  let extension := getFileExtension language
  let fileName :=
    if useDirectoryStructure then inferDirectoryStructure baseName extension none
    else Nat.repr (messageIndex + 1) ++ "_" ++ baseName ++ extension
  let final := findName usedNames fileName 0 (usedNames.length + 1)
  (final, final :: usedNames)

/-- The filename-resolution loop of `handleDownloadArtifacts` in
`background/artifactService.js`: the resolver is called once per artifact, in
order, with the one shared used-names set. Returns the resolved names together
with the final used-names set. -/
def resolveFilenamesAux (dir : Bool) :
    List (String × String × Nat) → List String → List String × List String
  | [], used => ([], used)
  | (t, l, i) :: rest, used =>
    let r := getUniqueFileName t l i used dir
    let rec' := resolveFilenamesAux dir rest r.2
    (r.1 :: rec'.1, rec'.2)

/-- The resolved file names for a batch of `(title, language, messageIndex)`
artifacts sharing one used-names set. -/
def resolveFilenames (dir : Bool) (batch : List (String × String × Nat))
    (used : List String) : List String :=
  (resolveFilenamesAux dir batch used).1

/-- The candidates the collision loop inspects in `[cnt, cnt + fuel)` that are
already taken. Auxiliary to the termination/freshness argument for `findName`. -/
def blockedNames (used : List String) (base : String) : Nat → Nat → List String
  | _, 0 => []
  | cnt, fuel + 1 =>
    (if base ++ suffixStr cnt ∈ used then [base ++ suffixStr cnt] else []) ++
      blockedNames used base (cnt + 1) fuel

theorem length_suffixStr (k : Nat) : (suffixStr k).length = if k = 0 then 0 else k + 1 := by
  cases k with
  | zero => rfl
  | succ k => simp [suffixStr, String.length_append, String.length]

theorem suffixStr_inj {base : String} {j k : Nat}
    (h : base ++ suffixStr j = base ++ suffixStr k) : j = k := by
  have hl : (base ++ suffixStr j).length = (base ++ suffixStr k).length := by rw [h]
  rw [String.length_append, String.length_append, length_suffixStr, length_suffixStr] at hl
  split at hl <;> split at hl <;> omega

theorem mem_blockedNames {used : List String} {base : String} {cnt fuel : Nat} {x : String}
    (hx : x ∈ blockedNames used base cnt fuel) :
    x ∈ used ∧ ∃ k, cnt ≤ k ∧ x = base ++ suffixStr k := by
  induction fuel generalizing cnt with
  | zero => simp [blockedNames] at hx
  | succ fuel ih =>
    rw [blockedNames] at hx
    rcases List.mem_append.1 hx with h | h
    · split at h
      · rcases List.mem_singleton.1 h with rfl
        exact ⟨by assumption, cnt, le_refl _, rfl⟩
      · simp at h
    · obtain ⟨hu, k, hk, he⟩ := ih h
      exact ⟨hu, k, by omega, he⟩

theorem nodup_blockedNames (used : List String) (base : String) (cnt fuel : Nat) :
    (blockedNames used base cnt fuel).Nodup := by
  induction fuel generalizing cnt with
  | zero => simp [blockedNames]
  | succ fuel ih =>
    rw [blockedNames]
    split
    · refine List.Nodup.cons ?_ (ih (cnt + 1))
      intro hmem
      obtain ⟨_, k, hk, he⟩ := mem_blockedNames hmem
      have := suffixStr_inj he
      omega
    · simpa using ih (cnt + 1)

theorem length_blockedNames_le (used : List String) (base : String) (cnt fuel : Nat) :
    (blockedNames used base cnt fuel).length ≤ used.length := by
  have hsub : blockedNames used base cnt fuel ⊆ used := fun x hx => (mem_blockedNames hx).1
  have h1 : (blockedNames used base cnt fuel).toFinset.card =
      (blockedNames used base cnt fuel).length :=
    List.toFinset_card_of_nodup (nodup_blockedNames used base cnt fuel)
  have h2 : (blockedNames used base cnt fuel).toFinset ⊆ used.toFinset := by
    intro x hx
    exact List.mem_toFinset.2 (hsub (List.mem_toFinset.1 hx))
  have h3 := Finset.card_le_card h2
  have h4 := used.toFinset_card_le
  omega

theorem findName_not_mem {used : List String} {base : String} {cnt fuel : Nat}
    (h : (blockedNames used base cnt fuel).length < fuel) :
    findName used base cnt fuel ∉ used := by
  induction fuel generalizing cnt with
  | zero => omega
  | succ fuel ih =>
    rw [findName]
    rw [blockedNames] at h
    by_cases hm : base ++ suffixStr cnt ∈ used
    · rw [if_pos hm]
      rw [if_pos hm] at h
      exact ih (by simpa using h)
    · rw [if_neg hm]
      exact hm

/-- The name chosen by `getUniqueFileName` is never one that is already in the
shared used-names set: the growing-asterisk collision loop always terminates on
a fresh candidate. -/
theorem getUniqueFileName_fresh (title language : String) (i : Nat)
    (used : List String) (dir : Bool) :
    (getUniqueFileName title language i used dir).1 ∉ used := by
  simp only [getUniqueFileName]
  exact findName_not_mem (Nat.lt_succ_of_le (length_blockedNames_le _ _ _ _))

theorem getUniqueFileName_used_eq (title language : String) (i : Nat)
    (used : List String) (dir : Bool) :
    (getUniqueFileName title language i used dir).2 =
      (getUniqueFileName title language i used dir).1 :: used := rfl

/-- Invariant of one pass of filename resolution over a shared used-names set:
the set only grows, every produced name is fresh for the initial set but
registered in the final set, and the produced names are pairwise distinct. -/
def NamesOk (used : List String) (names : List String) (used' : List String) : Prop :=
  used ⊆ used' ∧ (∀ n ∈ names, n ∉ used ∧ n ∈ used') ∧ names.Pairwise (· ≠ ·)

theorem NamesOk.nil (used : List String) : NamesOk used [] used :=
  ⟨fun _ h => h, by simp, List.Pairwise.nil⟩

theorem NamesOk.comp {used u₁ u₂ : List String} {n₁ n₂ : List String}
    (h₁ : NamesOk used n₁ u₁) (h₂ : NamesOk u₁ n₂ u₂) : NamesOk used (n₁ ++ n₂) u₂ := by
  obtain ⟨hs₁, hm₁, hp₁⟩ := h₁
  obtain ⟨hs₂, hm₂, hp₂⟩ := h₂
  refine ⟨fun x hx => hs₂ (hs₁ hx), ?_, ?_⟩
  · intro n hn
    rcases List.mem_append.1 hn with h | h
    · exact ⟨(hm₁ n h).1, hs₂ (hm₁ n h).2⟩
    · exact ⟨fun hc => (hm₂ n h).1 (hs₁ hc), (hm₂ n h).2⟩
  · refine List.pairwise_append.2 ⟨hp₁, hp₂, ?_⟩
    intro a ha b hb hab
    exact (hm₂ b hb).1 (hab ▸ (hm₁ a ha).2)

theorem NamesOk.single {used : List String} {n : String} (h : n ∉ used) :
    NamesOk used [n] (n :: used) := by
  refine ⟨fun x hx => List.mem_cons_of_mem _ hx, ?_, List.pairwise_singleton _ _⟩
  intro m hm
  rcases List.mem_singleton.1 hm with rfl
  exact ⟨h, List.mem_cons_self _ _⟩

theorem resolveFilenamesAux_ok (dir : Bool) (batch : List (String × String × Nat))
    (used : List String) :
    NamesOk used (resolveFilenamesAux dir batch used).1 (resolveFilenamesAux dir batch used).2 := by
  induction batch generalizing used with
  | nil => exact NamesOk.nil used
  | cons art rest ih =>
    obtain ⟨t, l, i⟩ := art
    have hfresh := getUniqueFileName_fresh t l i used dir
    have h1 : NamesOk used [(getUniqueFileName t l i used dir).1]
        (getUniqueFileName t l i used dir).2 := by
      rw [getUniqueFileName_used_eq]
      exact NamesOk.single hfresh
    have h2 := ih (getUniqueFileName t l i used dir).2
    simpa [resolveFilenamesAux] using h1.comp h2

/-- Drop an expected leading character sequence: `some rest` when `l = pre ++ rest`. -/
def dropPre : List Char → List Char → Option (List Char)
  | [], l => some l
  | _ :: _, [] => none
  | p :: ps, c :: cs => if c = p then dropPre ps cs else none

/-- Split `l` around the first (leftmost, then shortest) occurrence of `pat`:
`some (before, after)` with `l = before ++ pat ++ after`. This is the lazy
`([\s\S]*?)pat` regex capture. -/
def splitAtFirst (pat : List Char) : List Char → Option (List Char × List Char)
  | [] =>
    match dropPre pat [] with
    | some r => some ([], r)
    | none => none
  | c :: cs =>
    match dropPre pat (c :: cs) with
    | some r => some ([], r)
    | none =>
      match splitAtFirst pat cs with
      | some (before, after) => some (c :: before, after)
      | none => none

/-- Match the `[^>]*>` part of the open-tag regex: capture up to the first `'>'`. -/
def matchOpenTag : List Char → Option (List Char × List Char)
  | [] => none
  | c :: cs =>
    if c = '>' then some ([], cs)
    else
      match matchOpenTag cs with
      | some (attrs, rest) => some (c :: attrs, rest)
      | none => none

/-- One attempted match of `/<antArtifact[^>]*>([\s\S]*?)<\/antArtifact>/` at the
head of the list; on success returns (full match, capture group 1, remainder). -/
def tryMatchAt (l : List Char) : Option (List Char × List Char × List Char) :=
  match dropPre "<antArtifact".data l with
  | none => none
  | some afterOpen =>
    match matchOpenTag afterOpen with
    | none => none
    | some (attrs, afterGt) =>
      match splitAtFirst "</antArtifact>".data afterGt with
      | none => none
      | some (content, rest) =>
        some ("<antArtifact".data ++ attrs ++ '>' :: (content ++ "</antArtifact>".data),
          content, rest)

/-- Capture group of `/pat([^"]*)/` applied to `l` (first occurrence of `pat`,
then everything up to the next double quote). -/
def captureAfter (pat : List Char) (l : List Char) : Option (List Char) :=
  match splitAtFirst pat l with
  | some (_, rest) => some (rest.takeWhile (fun c => c ≠ '"'))
  | none => none

/-- One artifact extracted from a message body by
`shared/artifactExtractor.ts` (`extractArtifacts(text)`). -/
structure ExtractedArtifact where
  title : String
  language : String
  content : String
deriving DecidableEq, Repr

/-- The repeated `regex.exec` loop of `extractArtifacts`: leftmost,
non-overlapping matches, continuing after each match. Fuel is the remaining
text length, which bounds the number of loop steps. -/
def scanArtifacts : Nat → List Char → List ExtractedArtifact
  | 0, _ => []
  | _, [] => []
  | fuel + 1, c :: cs =>
    match tryMatchAt (c :: cs) with
    | some (fullTag, content, rest) =>
      { title := match captureAfter "title=\"".data fullTag with
                 | some t => (⟨t⟩ : String)
                 | none => "Untitled"
        language := match captureAfter "language=\"".data fullTag with
                    | some t => (⟨t⟩ : String)
                    | none => "txt"
        content := jsTrim ⟨content⟩ } :: scanArtifacts fuel rest
    | none => scanArtifacts fuel cs

/-- The `extractArtifacts` function of `shared/artifactExtractor.ts`. -/
def extractArtifacts (text : String) : List ExtractedArtifact :=
  scanArtifacts text.data.length text.data

/-- One entry of `payload.chat_messages` as read by `handleDownloadArtifacts`. -/
structure ChatMessage where
  sender : String
  text : String
deriving DecidableEq, Repr

/-- The chat payload fetched from storage by `handleDownloadArtifacts`. -/
structure ChatPayload where
  name : String
  chat_messages : List ChatMessage
deriving DecidableEq, Repr

/-- The inner `extracted.forEach` of `handleDownloadArtifacts`: resolve a
filename for each artifact of one message through the shared used-names set and
pair it with the artifact's content. -/
def resolveExtracted (dir : Bool) (index : Nat) :
    List ExtractedArtifact → List String → List (String × String) × List String
  | [], used => ([], used)
  | a :: rest, used =>
    let r := getUniqueFileName a.title a.language index used dir
    let next := resolveExtracted dir index rest r.2
    ((r.1, a.content) :: next.1, next.2)

/-- The outer `payload.chat_messages.forEach` of `handleDownloadArtifacts`:
skip non-assistant or empty-text messages, extract artifacts from the rest, and
accumulate `(filename, content)` pairs with the one shared used-names set. -/
def collectMessages (dir : Bool) :
    List ChatMessage → Nat → List String → List (String × String) × List String
  | [], _, used => ([], used)
  | m :: rest, index, used =>
    if m.sender = "assistant" && m.text ≠ "" then
      let first := resolveExtracted dir index (extractArtifacts m.text) used
      let next := collectMessages dir rest (index + 1) first.2
      (first.1 ++ next.1, next.2)
    else collectMessages dir rest (index + 1) used

/-- The archive produced by `shared/zipCreator.js` (`createZip(artifacts)`),
modelled as its ordered list of `(filename, content)` entries. -/
def createZip (artifacts : List (String × String)) : List (String × String) :=
  artifacts

/-- Observable outcome of `handleDownloadArtifacts`: either only a notification
is sent to the tab, or a zip archive is built, downloaded and a success
notification sent. -/
inductive DownloadResult where
  | notified (success : Bool) (message : String)
  | downloaded (zip : List (String × String)) (zipName : String) (message : String)
deriving DecidableEq, Repr

/-- The `handleDownloadArtifacts` handler of `background/artifactService.js`. -/
def handleDownloadArtifacts (payload : Option ChatPayload)
    (useDirectoryStructure : Bool) : DownloadResult :=
  match payload with
  | none => .notified false "No payload found, try refreshing."
  | some p =>
    let artifacts := (collectMessages useDirectoryStructure p.chat_messages 0 []).1
    if artifacts.length = 0 then .notified false "No artifacts in this conversation."
    else
      .downloaded (createZip artifacts) (p.name ++ ".zip")
        (Nat.repr artifacts.length ++ " artifacts downloaded.")

theorem resolveExtracted_ok (dir : Bool) (index : Nat) (arts : List ExtractedArtifact)
    (used : List String) :
    NamesOk used ((resolveExtracted dir index arts used).1.map Prod.fst)
      (resolveExtracted dir index arts used).2 := by
  induction arts generalizing used with
  | nil => exact NamesOk.nil used
  | cons a rest ih =>
    have hfresh := getUniqueFileName_fresh a.title a.language index used dir
    have h1 : NamesOk used [(getUniqueFileName a.title a.language index used dir).1]
        (getUniqueFileName a.title a.language index used dir).2 := by
      rw [getUniqueFileName_used_eq]
      exact NamesOk.single hfresh
    have h2 := ih (getUniqueFileName a.title a.language index used dir).2
    simpa [resolveExtracted] using h1.comp h2

theorem collectMessages_ok (dir : Bool) (msgs : List ChatMessage) (index : Nat)
    (used : List String) :
    NamesOk used ((collectMessages dir msgs index used).1.map Prod.fst)
      (collectMessages dir msgs index used).2 := by
  induction msgs generalizing index used with
  | nil => exact NamesOk.nil used
  | cons m rest ih =>
    by_cases hm : m.sender = "assistant" ∧ m.text ≠ ""
    · have h1 := resolveExtracted_ok dir index (extractArtifacts m.text) used
      have h2 := ih (index + 1) (resolveExtracted dir index (extractArtifacts m.text) used).2
      simpa [collectMessages, hm] using h1.comp h2
    · simpa [collectMessages, hm] using ih (index + 1) used

/-- C1: for every batch of artifacts, resolving filenames for all artifacts of
the batch — calling `getUniqueFileName` once per artifact, in order, with one
shared used-names set — returns a list of paths that is pairwise distinct,
regardless of how many input titles collide. This holds for the bare resolver
loop (`resolveFilenames`) and for the full nested message loop of
`handleDownloadArtifacts` (`collectMessages`). -/
theorem c1_resolveFilenames_pairwise_distinct (dir : Bool)
    (batch : List (String × String × Nat)) (used : List String)
    (msgs : List ChatMessage) (index : Nat) (used₀ : List String) :
    (resolveFilenames dir batch used).Pairwise (· ≠ ·) ∧
      ((collectMessages dir msgs index used₀).1.map Prod.fst).Pairwise (· ≠ ·) :=
  ⟨(resolveFilenamesAux_ok dir batch used).2.2,
    (collectMessages_ok dir msgs index used₀).2.2⟩

/-- The `ArtifactFile` record of `shared/models/artifact.ts`: a resolved
filename plus content and an optional directory path (`""` when absent). The
back-reference to the originating artifact is elided. -/
structure ArtifactFile where
  filename : String
  content : String
  path : String
deriving DecidableEq, Repr

namespace ZipCreator

/-- The `ZipCreator.createZip` of `shared/utils/zipCreator.ts`, modelled as the
ordered list of zip entries: each file is stored under
`` file.path ? `${file.path}/${file.filename}` : file.filename ``. -/
def createZip (files : List ArtifactFile) : List (String × String) :=
  files.map (fun f =>
    (if f.path ≠ "" then f.path ++ "/" ++ f.filename else f.filename, f.content))

end ZipCreator

/-- Timestamp mangling `iso.replace(/[:.]/g, "-").slice(0, 19)` used by the
download service and by `FilenameHelper.getFilename`. -/
def isoStamp (iso : String) : String :=
  ⟨(iso.data.map (fun c => if c = ':' || c = '.' then '-' else c)).take 19⟩

namespace DownloadService

/-- The `DownloadService.downloadArtifactsAsZip` of the background download
service: an empty file list throws before any archive is built; otherwise the
zip entries are built and the download is triggered under a
`claude-artifacts-<timestamp>.zip` name (the current time is the `now`
parameter). -/
def downloadArtifactsAsZip (now : Date) (files : List ArtifactFile) :
    Except String (List (String × String) × String) :=
  if files.length = 0 then .error "No artifacts to download"
  else .ok (ZipCreator.createZip files, "claude-artifacts-" ++ isoStamp now.iso ++ ".zip")

end DownloadService

/-- C9: whenever extraction yields zero artifacts, the pipeline short-circuits
with the distinguishable "nothing to do" notification and never builds or
returns an archive; likewise the download service rejects an empty file list
before building a zip. -/
theorem c9_zero_artifacts_short_circuit (p : ChatPayload) (dir : Bool) (now : Date)
    (h : (collectMessages dir p.chat_messages 0 []).1 = []) :
    handleDownloadArtifacts (some p) dir =
        .notified false "No artifacts in this conversation." ∧
      (∀ z n m, handleDownloadArtifacts (some p) dir ≠ .downloaded z n m) ∧
      DownloadService.downloadArtifactsAsZip now [] = .error "No artifacts to download" := by
  have h0 : handleDownloadArtifacts (some p) dir =
      .notified false "No artifacts in this conversation." := by
    simp [handleDownloadArtifacts, h]
  exact ⟨h0, fun z n m hc => by rw [h0] at hc; exact DownloadResult.noConfusion hc, rfl⟩

/-- Witness for C9 at a concrete payload whose one assistant message contains
no artifact tag. -/
theorem c9_zero_artifacts_short_circuit_witness :
    (collectMessages false [⟨"assistant", "hello"⟩] 0 []).1 = [] ∧
      handleDownloadArtifacts (some ⟨"chat", [⟨"assistant", "hello"⟩]⟩) false =
        .notified false "No artifacts in this conversation." :=
  ⟨by decide,
    (c9_zero_artifacts_short_circuit ⟨"chat", [⟨"assistant", "hello"⟩]⟩ false ⟨0, "x"⟩
      (by decide)).1⟩

/-- Timestamp comparison used by the first stitcher's sort
(`a.timestamp.getTime() - b.timestamp.getTime()`). -/
def tsLe (a b : ArtifactState) : Prop :=
  a.timestamp.epochMs ≤ b.timestamp.epochMs

instance : DecidableRel tsLe := fun a b =>
  inferInstanceAs (Decidable (a.timestamp.epochMs ≤ b.timestamp.epochMs))

instance : IsTotal ArtifactState tsLe :=
  ⟨fun a b => Nat.le_total a.timestamp.epochMs b.timestamp.epochMs⟩

instance : IsTrans ArtifactState tsLe :=
  ⟨fun _ _ _ => Nat.le_trans⟩

/-- Boolean form of the second stitcher's comparator, which only compares when
both timestamps are present and otherwise reports a tie. -/
def ts2LeB (a b : Artifact2) : Bool :=
  match a.timestamp, b.timestamp with
  | some x, some y => x.epochMs ≤ y.epochMs
  | _, _ => true

/-- Ordering relation of the second stitcher's sort. -/
def ts2Le (a b : Artifact2) : Prop :=
  ts2LeB a b = true

instance : DecidableRel ts2Le := fun a b =>
  inferInstanceAs (Decidable (ts2LeB a b = true))

/-- One step of grouping: push `a` onto the group stored under `key`, creating
the group at the end on first sight of the key. This is the insertion-ordered
`groupedByTitle[key].push(artifact)` (plain object / `Map`) of both stitchers. -/
def insertGrouped {α : Type} (key : String) (a : α) :
    List (String × List α) → List (String × List α)
  | [] => [(key, [a])]
  | (k, g) :: rest =>
    if k = key then (k, g ++ [a]) :: rest else (k, g) :: insertGrouped key a rest

/-- Group a list by a string key, keys in first-seen order, members in list
order — the grouping pass shared by both `stitchArtifacts` implementations. -/
def groupPairs {α : Type} (keyFn : α → String) (xs : List α) : List (String × List α) :=
  xs.foldl (fun acc a => insertGrouped (keyFn a) a acc) []

/-- Common shape of both `stitchArtifacts` implementations: lists of length at
most one are returned as-is; otherwise groups are formed in first-seen key
order, singleton groups pass through, and larger groups are merged by
`mergeGroup`. -/
def stitchCore {α : Type} (keyFn : α → String) (mergeGroup : List α → List α)
    (artifacts : List α) : List α :=
  if artifacts.length ≤ 1 then artifacts
  else
    (groupPairs keyFn artifacts).flatMap
      (fun p => if p.2.length = 1 then p.2 else mergeGroup p.2)

namespace ArtifactExtractor

/-- Grouping key `` `${artifact.title}-${artifact.type}` `` of the first
`ArtifactExtractor.stitchArtifacts` (no language component). -/
def key1 (a : ArtifactState) : String :=
  a.title ++ "-" ++ a.type.str

/-- The `combineArtifacts` of the first `ArtifactExtractor`, applied to the
timestamp-sorted group `first :: rest`: non-code groups keep only the last
(most recent) member; code groups concatenate all contents joined by a blank
line into a copy of the first member stamped with the current time `now`. -/
def combineArtifacts (now : Date) (first : ArtifactState) (rest : List ArtifactState) :
    ArtifactState :=
  if first.type ≠ ArtifactType.code then (first :: rest).getLast (by simp)
  else
    { first with
        content := joinWith "\n\n" ((first :: rest).map ArtifactState.content)
        timestamp := now }

/-- Merge one multi-member group: sort ascending by timestamp (JS stable sort,
modelled by stable insertion sort), then combine. -/
def mergeGroup1 (now : Date) (group : List ArtifactState) : List ArtifactState :=
  match List.insertionSort tsLe group with
  | [] => []
  | first :: rest => [combineArtifacts now first rest]

/-- The first `ArtifactExtractor.stitchArtifacts` of
`shared/utils/filenameHelper.ts` (lines 146-203). `now` is the `new Date()`
read by `combineArtifacts`. -/
def stitchArtifacts (now : Date) (artifacts : List ArtifactState) : List ArtifactState :=
  stitchCore key1 (mergeGroup1 now) artifacts

end ArtifactExtractor

namespace ArtifactExtractor2

/-- Grouping key
`` `${artifact.title}-${artifact.type}${artifact.language ? `-${artifact.language}` : ""}` ``
of the second `ArtifactExtractor.stitchArtifacts`; a missing or empty (falsy)
language contributes nothing. -/
def key2 (a : Artifact2) : String :=
  a.title ++ "-" ++ a.type.str ++
    (match a.language with
     | some l => if l = "" then "" else "-" ++ l
     | none => "")

/-- Merge one multi-member group in the second stitcher: sort by timestamp,
then spread the first member with the contents joined by a single newline and
the series fields set. -/
def mergeGroup2 (group : List Artifact2) : List Artifact2 :=
  match List.insertionSort ts2Le group with
  | [] => []
  | first :: rest =>
    [{ first with
        content := joinWith "\n" ((first :: rest).map Artifact2.content)
        partOfSeries := some true
        seriesPosition := some 1
        seriesTotal := some (first :: rest).length }]

/-- The second `ArtifactExtractor.stitchArtifacts` of
`shared/utils/filenameHelper.ts` (lines 516-569). -/
def stitchArtifacts (artifacts : List Artifact2) : List Artifact2 :=
  stitchCore key2 mergeGroup2 artifacts

end ArtifactExtractor2

/-- Well-formedness of a grouping accumulator: keys are distinct, every member
of a group carries the group's key, and groups are nonempty. -/
def GroupAccOk {α : Type} (keyFn : α → String) (acc : List (String × List α)) : Prop :=
  (acc.map Prod.fst).Nodup ∧ ∀ p ∈ acc, (∀ a ∈ p.2, keyFn a = p.1) ∧ p.2 ≠ []

theorem keys_insertGrouped {α : Type} (key : String) (a : α)
    (acc : List (String × List α)) :
    (insertGrouped key a acc).map Prod.fst =
      if key ∈ acc.map Prod.fst then acc.map Prod.fst else acc.map Prod.fst ++ [key] := by
  induction acc with
  | nil => simp [insertGrouped]
  | cons p rest ih =>
    obtain ⟨k, g⟩ := p
    by_cases hk : k = key
    · simp [insertGrouped, hk]
    · simp only [insertGrouped, if_neg hk, List.map_cons, ih, List.mem_cons]
      by_cases hmem : key ∈ rest.map Prod.fst
      · simp [hmem, Ne.symm hk]
      · simp [hmem, Ne.symm hk]

theorem insertGrouped_ok {α : Type} {keyFn : α → String} {a : α}
    {acc : List (String × List α)} (h : GroupAccOk keyFn acc) :
    GroupAccOk keyFn (insertGrouped (keyFn a) a acc) := by
  induction acc with
  | nil =>
    refine ⟨by simp [insertGrouped], ?_⟩
    intro p hp
    simp only [insertGrouped, List.mem_singleton] at hp
    subst hp
    exact ⟨by simp, by simp⟩
  | cons q rest ih =>
    obtain ⟨k, g⟩ := q
    obtain ⟨hnd, hmem⟩ := h
    have hq := hmem (k, g) (List.mem_cons_self _ _)
    have hrest : GroupAccOk keyFn rest :=
      ⟨(List.nodup_cons.1 hnd).2, fun p hp => hmem p (List.mem_cons_of_mem _ hp)⟩
    by_cases hk : k = keyFn a
    · refine ⟨by simpa [insertGrouped, hk] using hnd, ?_⟩
      intro p hp
      simp only [insertGrouped, if_pos hk, List.mem_cons] at hp
      rcases hp with rfl | hp
      · refine ⟨?_, by simp⟩
        intro b hb
        rcases List.mem_append.1 hb with hb | hb
        · exact hq.1 b hb
        · rcases List.mem_singleton.1 hb with rfl
          exact hk.symm
      · exact hmem p (List.mem_cons_of_mem _ hp)
    · obtain ⟨ihnd, ihmem⟩ := ih hrest
      refine ⟨?_, ?_⟩
      · simp only [insertGrouped, if_neg hk, List.map_cons]
        refine List.nodup_cons.2 ⟨?_, ihnd⟩
        rw [keys_insertGrouped]
        have hknotin : k ∉ rest.map Prod.fst := (List.nodup_cons.1 hnd).1
        split
        · exact hknotin
        · intro hc
          rcases List.mem_append.1 hc with hc | hc
          · exact hknotin hc
          · exact hk (List.mem_singleton.1 hc)
      · intro p hp
        simp only [insertGrouped, if_neg hk, List.mem_cons] at hp
        rcases hp with rfl | hp
        · exact hq
        · exact ihmem p hp

theorem groupPairs_ok {α : Type} (keyFn : α → String) (xs : List α) :
    GroupAccOk keyFn (groupPairs keyFn xs) := by
  suffices h : ∀ acc, GroupAccOk keyFn acc →
      GroupAccOk keyFn (xs.foldl (fun acc a => insertGrouped (keyFn a) a acc) acc) by
    exact h [] ⟨by simp, by simp⟩
  induction xs with
  | nil => exact fun acc h => h
  | cons a rest ih =>
    intro acc hacc
    exact ih _ (insertGrouped_ok hacc)

theorem insertGrouped_fresh {α : Type} {key : String} {acc : List (String × List α)}
    (a : α) (h : key ∉ acc.map Prod.fst) :
    insertGrouped key a acc = acc ++ [(key, [a])] := by
  induction acc with
  | nil => rfl
  | cons q rest ih =>
    obtain ⟨k, g⟩ := q
    simp only [List.map_cons, List.mem_cons] at h
    push_neg at h
    simp [insertGrouped, Ne.symm h.1, ih h.2]

theorem groupPairs_of_nodup_keys {α : Type} (keyFn : α → String) (xs : List α)
    (h : (xs.map keyFn).Nodup) :
    groupPairs keyFn xs = xs.map (fun a => (keyFn a, [a])) := by
  suffices hgen : ∀ acc : List (String × List α),
      (∀ x ∈ xs, keyFn x ∉ acc.map Prod.fst) → (xs.map keyFn).Nodup →
      xs.foldl (fun acc a => insertGrouped (keyFn a) a acc) acc =
        acc ++ xs.map (fun a => (keyFn a, [a])) by
    exact hgen [] (by simp) h
  clear h
  induction xs with
  | nil => simp
  | cons a rest ih =>
    intro acc hdisj hnd
    have hnd' : (keyFn a :: rest.map keyFn).Nodup := by simpa using hnd
    have h1 : insertGrouped (keyFn a) a acc = acc ++ [(keyFn a, [a])] :=
      insertGrouped_fresh a (hdisj a (List.mem_cons_self _ _))
    have h2 : ∀ x ∈ rest, keyFn x ∉ (acc ++ [(keyFn a, [a])]).map Prod.fst := by
      intro x hx
      rw [List.map_append, List.mem_append]
      rintro (hc | hc)
      · exact hdisj x (List.mem_cons_of_mem _ hx) hc
      · simp only [List.map_singleton, List.mem_singleton] at hc
        exact (List.nodup_cons.1 hnd').1 (hc ▸ List.mem_map_of_mem keyFn hx)
    calc (a :: rest).foldl (fun acc a => insertGrouped (keyFn a) a acc) acc
        = rest.foldl (fun acc a => insertGrouped (keyFn a) a acc) (acc ++ [(keyFn a, [a])]) := by
          rw [List.foldl_cons, h1]
      _ = (acc ++ [(keyFn a, [a])]) ++ rest.map (fun a => (keyFn a, [a])) :=
          ih (acc ++ [(keyFn a, [a])]) h2 (by simpa using (List.nodup_cons.1 hnd').2)
      _ = acc ++ (a :: rest).map (fun a => (keyFn a, [a])) := by simp

/-- Condition on a group merger: merging a nonempty group whose members all
share the key `k` yields exactly one record still keyed `k`. -/
def MergeOk {α : Type} (keyFn : α → String) (mergeGroup : List α → List α) : Prop :=
  ∀ (k : String) (g : List α), g ≠ [] → (∀ a ∈ g, keyFn a = k) →
    ∃ m, mergeGroup g = [m] ∧ keyFn m = k

theorem flatMap_keys {α : Type} (keyFn : α → String) (mergeGroup : List α → List α)
    (hM : MergeOk keyFn mergeGroup) :
    ∀ gs : List (String × List α), (∀ p ∈ gs, (∀ a ∈ p.2, keyFn a = p.1) ∧ p.2 ≠ []) →
    (gs.flatMap (fun p => if p.2.length = 1 then p.2 else mergeGroup p.2)).map keyFn =
      gs.map Prod.fst := by
  intro gs
  induction gs with
  | nil => simp
  | cons p rest ih =>
    intro hp
    have hhead := hp p (List.mem_cons_self _ _)
    have htail := fun q hq => hp q (List.mem_cons_of_mem _ hq)
    have hbody : ((if p.2.length = 1 then p.2 else mergeGroup p.2).map keyFn) = [p.1] := by
      by_cases hlen : p.2.length = 1
      · rw [if_pos hlen]
        obtain ⟨a, ha⟩ := List.length_eq_one.1 hlen
        rw [ha]
        simp [hhead.1 a (by simp [ha])]
      · rw [if_neg hlen]
        obtain ⟨m, hm, hk⟩ := hM p.1 p.2 hhead.2 hhead.1
        rw [hm]
        simp [hk]
    rw [List.flatMap_cons, List.map_append, ih htail, hbody, List.map_cons,
      List.singleton_append]

theorem flatMap_singletons {α : Type} (keyFn : α → String) (mergeGroup : List α → List α)
    (ys : List α) :
    ((ys.map (fun a => (keyFn a, [a]))).flatMap
      (fun p => if p.2.length = 1 then p.2 else mergeGroup p.2)) = ys := by
  induction ys with
  | nil => rfl
  | cons a rest ih => simp [List.flatMap_cons, ih]

/-- Stitching a list whose keys are pairwise distinct returns the identical
list unchanged, for any merger. -/
theorem stitchCore_of_nodup_keys {α : Type} (keyFn : α → String)
    (mergeGroup : List α → List α) (ys : List α) (h : (ys.map keyFn).Nodup) :
    stitchCore keyFn mergeGroup ys = ys := by
  by_cases h1 : ys.length ≤ 1
  · simp [stitchCore, h1]
  · unfold stitchCore
    rw [if_neg h1, groupPairs_of_nodup_keys keyFn ys h, flatMap_singletons]

theorem stitchCore_map_key {α : Type} (keyFn : α → String) (mergeGroup : List α → List α)
    (hM : MergeOk keyFn mergeGroup) (xs : List α) (h1 : ¬xs.length ≤ 1) :
    (stitchCore keyFn mergeGroup xs).map keyFn = (groupPairs keyFn xs).map Prod.fst := by
  unfold stitchCore
  rw [if_neg h1]
  exact flatMap_keys keyFn mergeGroup hM _ (groupPairs_ok keyFn xs).2

/-- Stitching twice (with possibly different mergers of the same key
discipline) equals stitching once. -/
theorem stitchCore_idem {α : Type} (keyFn : α → String)
    (merge₁ merge₂ : List α → List α) (hM : MergeOk keyFn merge₁) (xs : List α) :
    stitchCore keyFn merge₂ (stitchCore keyFn merge₁ xs) = stitchCore keyFn merge₁ xs := by
  by_cases h1 : xs.length ≤ 1
  · have hxs : stitchCore keyFn merge₁ xs = xs := by simp [stitchCore, h1]
    rw [hxs]
    simp [stitchCore, h1]
  · apply stitchCore_of_nodup_keys
    rw [stitchCore_map_key keyFn merge₁ hM xs h1]
    exact (groupPairs_ok keyFn xs).1

theorem mergeOk1 (now : Date) :
    MergeOk ArtifactExtractor.key1 (ArtifactExtractor.mergeGroup1 now) := by
  intro k g hne hkeys
  unfold ArtifactExtractor.mergeGroup1
  cases hs : List.insertionSort tsLe g with
  | nil =>
    exfalso
    have hlen := List.length_insertionSort tsLe g
    rw [hs] at hlen
    exact hne (List.length_eq_zero.1 hlen.symm)
  | cons first rest =>
    refine ⟨ArtifactExtractor.combineArtifacts now first rest, rfl, ?_⟩
    have hmem : ∀ x ∈ first :: rest, x ∈ g := by
      intro x hx
      exact (List.mem_insertionSort tsLe).1 (hs ▸ hx)
    unfold ArtifactExtractor.combineArtifacts
    split
    · exact hkeys _ (hmem _ (List.getLast_mem _))
    · exact hkeys first (hmem first (List.mem_cons_self _ _))

theorem mergeOk2 : MergeOk ArtifactExtractor2.key2 ArtifactExtractor2.mergeGroup2 := by
  intro k g hne hkeys
  unfold ArtifactExtractor2.mergeGroup2
  cases hs : List.insertionSort ts2Le g with
  | nil =>
    exfalso
    have hlen := List.length_insertionSort ts2Le g
    rw [hs] at hlen
    exact hne (List.length_eq_zero.1 hlen.symm)
  | cons first rest =>
    refine ⟨_, rfl, ?_⟩
    have hfirst : first ∈ g :=
      (List.mem_insertionSort ts2Le).1 (hs ▸ List.mem_cons_self _ _)
    exact hkeys first hfirst

/-- C5: stitching is idempotent — `stitch (stitch xs) = stitch xs` for both
`stitchArtifacts` implementations (for the first one even when the two passes
read different clock values) — and stitching a list in which no duplicate keys
remain returns the identical list unchanged, in order and content. -/
theorem c5_stitch_idempotent (now now₂ : Date) (xs : List ArtifactState)
    (ys : List Artifact2) :
    (ArtifactExtractor.stitchArtifacts now₂ (ArtifactExtractor.stitchArtifacts now xs) =
        ArtifactExtractor.stitchArtifacts now xs) ∧
      (ArtifactExtractor2.stitchArtifacts (ArtifactExtractor2.stitchArtifacts ys) =
        ArtifactExtractor2.stitchArtifacts ys) ∧
      (∀ zs : List ArtifactState, (zs.map ArtifactExtractor.key1).Nodup →
        ArtifactExtractor.stitchArtifacts now zs = zs) ∧
      (∀ ws : List Artifact2, (ws.map ArtifactExtractor2.key2).Nodup →
        ArtifactExtractor2.stitchArtifacts ws = ws) := by
  refine ⟨?_, ?_, ?_, ?_⟩
  · exact stitchCore_idem ArtifactExtractor.key1 _ _ (mergeOk1 now) xs
  · exact stitchCore_idem ArtifactExtractor2.key2 _ _ mergeOk2 ys
  · intro zs h
    exact stitchCore_of_nodup_keys ArtifactExtractor.key1 _ zs h
  · intro ws h
    exact stitchCore_of_nodup_keys ArtifactExtractor2.key2 _ ws h

/-- Witness for C5 at concrete inputs: a two-element code batch with one shared
title, and distinct-key lists passed to the no-duplicate-keys parts. -/
theorem c5_stitch_idempotent_witness :
    (ArtifactExtractor.stitchArtifacts ⟨7, "t7"⟩
        (ArtifactExtractor.stitchArtifacts ⟨5, "t5"⟩
          [⟨"i1", "T", .code, "a", some "python", ⟨0, "t0"⟩⟩,
           ⟨"i2", "T", .code, "b", some "python", ⟨1, "t1"⟩⟩]) =
      ArtifactExtractor.stitchArtifacts ⟨5, "t5"⟩
        [⟨"i1", "T", .code, "a", some "python", ⟨0, "t0"⟩⟩,
         ⟨"i2", "T", .code, "b", some "python", ⟨1, "t1"⟩⟩]) ∧
    (([⟨"i1", "A", .code, "a", some "py", ⟨0, "t0"⟩⟩,
       ⟨"i2", "B", .svg, "<svg/>", none, ⟨1, "t1"⟩⟩] :
        List ArtifactState).map ArtifactExtractor.key1).Nodup ∧
    ArtifactExtractor.stitchArtifacts ⟨5, "t5"⟩
        [⟨"i1", "A", .code, "a", some "py", ⟨0, "t0"⟩⟩,
         ⟨"i2", "B", .svg, "<svg/>", none, ⟨1, "t1"⟩⟩] =
      [⟨"i1", "A", .code, "a", some "py", ⟨0, "t0"⟩⟩,
       ⟨"i2", "B", .svg, "<svg/>", none, ⟨1, "t1"⟩⟩] := by
  refine ⟨(c5_stitch_idempotent ⟨5, "t5"⟩ ⟨7, "t7"⟩ _ []).1, by decide, ?_⟩
  exact (c5_stitch_idempotent ⟨5, "t5"⟩ ⟨7, "t7"⟩ [] []).2.2.1 _ (by decide)

theorem strLength_pos_of_ne {s : String} (h : s ≠ "") : 0 < s.length := by
  cases s with
  | mk data =>
    cases data with
    | nil => exact absurd rfl h
    | cons c cs => simp [String.length]

theorem strAppend_left_cancel {a b c : String} (h : a ++ b = a ++ c) : b = c := by
  have hd := congrArg String.data h
  rw [String.data_append, String.data_append] at hd
  cases b with
  | mk bd =>
    cases c with
    | mk cd =>
      exact congrArg String.mk (List.append_cancel_left hd)

theorem foldl_insert_const_key {α : Type} (keyFn : α → String) (k : String) :
    ∀ (xs : List α), (∀ x ∈ xs, keyFn x = k) → ∀ g : List α,
      xs.foldl (fun acc a => insertGrouped (keyFn a) a acc) [(k, g)] = [(k, g ++ xs)] := by
  intro xs
  induction xs with
  | nil => intro _ g; simp
  | cons x rest ih =>
    intro h g
    have hx : keyFn x = k := h x (List.mem_cons_self _ _)
    have hstep : insertGrouped (keyFn x) x [(k, g)] = [(k, g ++ [x])] := by
      simp [insertGrouped, hx]
    rw [List.foldl_cons, hstep, ih (fun y hy => h y (List.mem_cons_of_mem _ hy))]
    simp

theorem groupPairs_const_key {α : Type} (keyFn : α → String) (k : String)
    (xs : List α) (hne : xs ≠ []) (h : ∀ x ∈ xs, keyFn x = k) :
    groupPairs keyFn xs = [(k, xs)] := by
  cases xs with
  | nil => exact absurd rfl hne
  | cons x rest =>
    have hx : keyFn x = k := h x (List.mem_cons_self _ _)
    unfold groupPairs
    rw [List.foldl_cons]
    have hfirst : insertGrouped (keyFn x) x [] = [(k, [x])] := by simp [insertGrouped, hx]
    rw [hfirst, foldl_insert_const_key keyFn k rest
      (fun y hy => h y (List.mem_cons_of_mem _ hy)) [x]]
    simp

instance : IsRefl ArtifactState tsLe := ⟨fun x => Nat.le_refl x.timestamp.epochMs⟩

theorem sorted_rel_getLast {α : Type} {r : α → α → Prop} [IsRefl α r] :
    ∀ (l : List α) (hne : l ≠ []), l.Sorted r → ∀ x ∈ l, r x (l.getLast hne) := by
  intro l
  induction l with
  | nil => intro hne; exact absurd rfl hne
  | cons a rest ih =>
    intro _ hsort x hx
    cases rest with
    | nil =>
      rcases List.mem_singleton.1 hx with rfl
      exact IsRefl.refl x
    | cons b rest' =>
      rw [List.getLast_cons (by simp)]
      rcases List.mem_cons.1 hx with rfl | hx'
      · exact (List.sorted_cons.1 hsort).1 _ (List.getLast_mem _)
      · exact ih (by simp) (List.sorted_cons.1 hsort).2 x hx'

theorem mergeGroup1_length (now : Date) (g : List ArtifactState) (h : g ≠ []) :
    (ArtifactExtractor.mergeGroup1 now g).length = 1 := by
  unfold ArtifactExtractor.mergeGroup1
  cases hs : List.insertionSort tsLe g with
  | nil =>
    exfalso
    have hlen := List.length_insertionSort tsLe g
    rw [hs] at hlen
    exact h (List.length_eq_zero.1 hlen.symm)
  | cons first rest => rfl

theorem stitch1_pair (now : Date) (a b : ArtifactState)
    (hk : ArtifactExtractor.key1 a = ArtifactExtractor.key1 b) (hts : tsLe a b) :
    ArtifactExtractor.stitchArtifacts now [a, b] =
      [ArtifactExtractor.combineArtifacts now a [b]] := by
  unfold ArtifactExtractor.stitchArtifacts stitchCore
  rw [if_neg (by simp)]
  rw [groupPairs_const_key ArtifactExtractor.key1 (ArtifactExtractor.key1 a) [a, b]
    (by simp) (by simp [hk.symm])]
  simp [ArtifactExtractor.mergeGroup1, List.insertionSort, List.orderedInsert, hts]

theorem stitch2_pair (c d : Artifact2)
    (hk : ArtifactExtractor2.key2 c = ArtifactExtractor2.key2 d) (hts : ts2Le c d) :
    ArtifactExtractor2.stitchArtifacts [c, d] =
      [{ c with
          content := c.content ++ "\n" ++ d.content
          partOfSeries := some true
          seriesPosition := some 1
          seriesTotal := some 2 }] := by
  unfold ArtifactExtractor2.stitchArtifacts stitchCore
  rw [if_neg (by simp)]
  rw [groupPairs_const_key ArtifactExtractor2.key2 (ArtifactExtractor2.key2 c) [c, d]
    (by simp) (by simp [hk.symm])]
  simp [ArtifactExtractor2.mergeGroup2, List.insertionSort, List.orderedInsert, hts, joinWith]

/-- C2 counterexample: on a code group of two same-key members with contents
"a" and "b" (oldest first), the second stitcher implementation produces the
merged content "a\nb", not the blank-line concatenation "a\n\nb" the claim
states for stitching. -/
theorem c2_counterexample :
    (ArtifactExtractor2.stitchArtifacts
        [⟨"i1", "T", "a", .code, some "py", some ⟨0, "t0"⟩, none, none, none⟩,
         ⟨"i2", "T", "b", .code, some "py", some ⟨1, "t1"⟩, none, none, none⟩]).map
      Artifact2.content ≠ ["a\n\nb"] := by decide

/-- C2 (amended): for a code-artifact group of two members sorted oldest first,
the first stitcher (`combineArtifacts`) replaces the group with exactly one
merged record whose content is the contents joined by a blank line; the second
stitcher implementation also merges into one record but joins the contents with
a single newline only. -/
theorem c2_amended_code_group_join (now : Date) (a b : ArtifactState) (c d : Artifact2)
    (ha : a.type = ArtifactType.code)
    (hk : ArtifactExtractor.key1 a = ArtifactExtractor.key1 b)
    (hts : tsLe a b)
    (hk2 : ArtifactExtractor2.key2 c = ArtifactExtractor2.key2 d)
    (hts2 : ts2Le c d) :
    (ArtifactExtractor.stitchArtifacts now [a, b]).map ArtifactState.content =
        [a.content ++ "\n\n" ++ b.content] ∧
      (ArtifactExtractor2.stitchArtifacts [c, d]).map Artifact2.content =
        [c.content ++ "\n" ++ d.content] := by
  constructor
  · rw [stitch1_pair now a b hk hts]
    unfold ArtifactExtractor.combineArtifacts
    rw [if_neg (by simp [ha])]
    simp [joinWith]
  · rw [stitch2_pair c d hk2 hts2]
    simp

/-- Witness for C2's amended statement at a concrete code pair. -/
theorem c2_amended_code_group_join_witness :
    (ArtifactExtractor.stitchArtifacts ⟨9, "t9"⟩
        [⟨"i1", "T", .code, "a", some "py", ⟨0, "t0"⟩⟩,
         ⟨"i2", "T", .code, "b", some "py", ⟨1, "t1"⟩⟩]).map ArtifactState.content =
        ["a" ++ "\n\n" ++ "b"] ∧
      (ArtifactExtractor2.stitchArtifacts
          [⟨"i1", "T", "a", .code, some "py", some ⟨0, "t0"⟩, none, none, none⟩,
           ⟨"i2", "T", "b", .code, some "py", some ⟨1, "t1"⟩, none, none, none⟩]).map
        Artifact2.content = ["a" ++ "\n" ++ "b"] :=
  c2_amended_code_group_join ⟨9, "t9"⟩
    ⟨"i1", "T", .code, "a", some "py", ⟨0, "t0"⟩⟩
    ⟨"i2", "T", .code, "b", some "py", ⟨1, "t1"⟩⟩
    ⟨"i1", "T", "a", .code, some "py", some ⟨0, "t0"⟩, none, none, none⟩
    ⟨"i2", "T", "b", .code, some "py", some ⟨1, "t1"⟩, none, none, none⟩
    (by decide) (by decide) (by decide) (by decide) (by decide)

/-- C3 counterexample: for a two-member non-code (markdown) group, the second
stitcher implementation does not keep only the most recent member — it merges
the group into one concatenated record. -/
theorem c3_counterexample :
    ArtifactExtractor2.stitchArtifacts
        [⟨"i1", "T", "a", .markdown, none, some ⟨0, "t0"⟩, none, none, none⟩,
         ⟨"i2", "T", "b", .markdown, none, some ⟨1, "t1"⟩, none, none, none⟩] ≠
      [⟨"i2", "T", "b", .markdown, none, some ⟨1, "t1"⟩, none, none, none⟩] := by decide

/-- C3 (amended): for every non-code group with more than one member and one
shared key, the first stitcher keeps only the group's most recent member (by
timestamp) and does not concatenate contents; the second stitcher
implementation instead concatenates the members' contents joined by a
newline. -/
theorem c3_amended_noncode_keep_latest (now : Date) (xs : List ArtifactState)
    (k : String) (c d : Artifact2)
    (hlen : 1 < xs.length)
    (hkeys : ∀ x ∈ xs, ArtifactExtractor.key1 x = k)
    (hnc : ∀ x ∈ xs, x.type ≠ ArtifactType.code)
    (hk2 : ArtifactExtractor2.key2 c = ArtifactExtractor2.key2 d)
    (hts2 : ts2Le c d) :
    (∃ m, ArtifactExtractor.stitchArtifacts now xs = [m] ∧ m ∈ xs ∧
        ∀ x ∈ xs, x.timestamp.epochMs ≤ m.timestamp.epochMs) ∧
      (ArtifactExtractor2.stitchArtifacts [c, d]).map Artifact2.content =
        [c.content ++ "\n" ++ d.content] := by
  constructor
  · have hne : xs ≠ [] := by
      intro h
      subst h
      simp at hlen
    have hstep : ArtifactExtractor.stitchArtifacts now xs =
        ArtifactExtractor.mergeGroup1 now xs := by
      unfold ArtifactExtractor.stitchArtifacts stitchCore
      rw [if_neg (by omega), groupPairs_const_key _ k xs hne hkeys]
      simp only [List.flatMap_cons, List.flatMap_nil, List.append_nil]
      rw [if_neg (by omega)]
    cases hs : List.insertionSort tsLe xs with
    | nil =>
      exfalso
      have hlen2 := List.length_insertionSort tsLe xs
      rw [hs] at hlen2
      exact hne (List.length_eq_zero.1 hlen2.symm)
    | cons first rest =>
      have hmemsort : ∀ x, x ∈ first :: rest ↔ x ∈ xs := by
        intro x
        rw [← hs]
        exact List.mem_insertionSort tsLe
      have hfirst : first.type ≠ ArtifactType.code :=
        hnc first ((hmemsort first).1 (List.mem_cons_self _ _))
      have hsorted : (first :: rest).Sorted tsLe := by
        rw [← hs]
        exact List.sorted_insertionSort tsLe xs
      have hsv : ArtifactExtractor.mergeGroup1 now xs =
          [ArtifactExtractor.combineArtifacts now first rest] := by
        unfold ArtifactExtractor.mergeGroup1
        rw [hs]
      have hcomb : ArtifactExtractor.combineArtifacts now first rest =
          (first :: rest).getLast (by simp) := by
        unfold ArtifactExtractor.combineArtifacts
        rw [if_pos hfirst]
      refine ⟨(first :: rest).getLast (by simp), by rw [hstep, hsv, hcomb], ?_, ?_⟩
      · exact (hmemsort _).1 (List.getLast_mem _)
      · intro x hx
        exact sorted_rel_getLast (first :: rest) (by simp) hsorted x ((hmemsort x).2 hx)
  · rw [stitch2_pair c d hk2 hts2]
    simp

/-- Witness for C3's amended statement at a concrete markdown pair. -/
theorem c3_amended_noncode_keep_latest_witness :
    (∃ m, ArtifactExtractor.stitchArtifacts ⟨9, "t9"⟩
          [⟨"i1", "T", .markdown, "a", none, ⟨0, "t0"⟩⟩,
           ⟨"i2", "T", .markdown, "b", none, ⟨1, "t1"⟩⟩] = [m] ∧
        m ∈ [⟨"i1", "T", .markdown, "a", none, ⟨0, "t0"⟩⟩,
             ⟨"i2", "T", .markdown, "b", none, ⟨1, "t1"⟩⟩] ∧
        ∀ x ∈ [(⟨"i1", "T", .markdown, "a", none, ⟨0, "t0"⟩⟩ : ArtifactState),
               ⟨"i2", "T", .markdown, "b", none, ⟨1, "t1"⟩⟩],
          x.timestamp.epochMs ≤ m.timestamp.epochMs) ∧
      (ArtifactExtractor2.stitchArtifacts
          [⟨"i1", "T", "a", .markdown, none, some ⟨0, "t0"⟩, none, none, none⟩,
           ⟨"i2", "T", "b", .markdown, none, some ⟨1, "t1"⟩, none, none, none⟩]).map
        Artifact2.content = ["a" ++ "\n" ++ "b"] :=
  c3_amended_noncode_keep_latest ⟨9, "t9"⟩
    [⟨"i1", "T", .markdown, "a", none, ⟨0, "t0"⟩⟩,
     ⟨"i2", "T", .markdown, "b", none, ⟨1, "t1"⟩⟩]
    "T-markdown"
    ⟨"i1", "T", "a", .markdown, none, some ⟨0, "t0"⟩, none, none, none⟩
    ⟨"i2", "T", "b", .markdown, none, some ⟨1, "t1"⟩, none, none, none⟩
    (by decide) (by decide) (by decide) (by decide) (by decide)

theorem key2_ne_of_language_ne {c d : Artifact2} (htitle : c.title = d.title)
    (htype : c.type = d.type) {l₁ l₂ : String} (hl₁ : c.language = some l₁)
    (hl₂ : d.language = some l₂) (hne : l₁ ≠ l₂) :
    ArtifactExtractor2.key2 c ≠ ArtifactExtractor2.key2 d := by
  unfold ArtifactExtractor2.key2
  rw [hl₁, hl₂, ← htitle, ← htype]
  dsimp only
  by_cases h1 : l₁ = "" <;> by_cases h2 : l₂ = ""
  · exact absurd (h1.trans h2.symm) hne
  · rw [if_pos h1, if_neg h2]
    intro heq
    have h3 := strAppend_left_cancel heq
    have hlen := congrArg String.length h3
    rw [String.length_append] at hlen
    have := strLength_pos_of_ne h2
    simp only [show ("" : String).length = 0 from rfl,
      show ("-" : String).length = 1 from rfl] at hlen
    omega
  · rw [if_neg h1, if_pos h2]
    intro heq
    have h3 := strAppend_left_cancel heq
    have hlen := congrArg String.length h3
    rw [String.length_append] at hlen
    have := strLength_pos_of_ne h1
    simp only [show ("" : String).length = 0 from rfl,
      show ("-" : String).length = 1 from rfl] at hlen
    omega
  · rw [if_neg h1, if_neg h2]
    intro heq
    have h3 := strAppend_left_cancel heq
    exact hne (strAppend_left_cancel h3)

/-- C4 counterexample: two code artifacts with equal title and type but
different languages are merged by the first stitcher (its grouping key ignores
the language), contradicting "never merged". -/
theorem c4_counterexample :
    (ArtifactExtractor.stitchArtifacts ⟨9, "t9"⟩
          [⟨"i1", "script", .code, "a", some "python", ⟨0, "t0"⟩⟩,
           ⟨"i2", "script", .code, "b", some "javascript", ⟨1, "t1"⟩⟩]).length = 1 ∧
      (some "python" : Option String) ≠ some "javascript" := by decide

/-- C4 (amended): the second stitcher implementation merges exactly by the
`(title, type, language)` key — in particular two code artifacts with equal
title and type but different (present) languages pass through unmerged — while
the first stitcher keys only on `(title, type)` and therefore merges any
same-title same-type pair into one record regardless of language. -/
theorem c4_amended_language_key (now : Date) (a b : ArtifactState) (c d : Artifact2)
    (hk : ArtifactExtractor.key1 a = ArtifactExtractor.key1 b)
    (htitle : c.title = d.title) (htype : c.type = d.type)
    (l₁ l₂ : String) (hl₁ : c.language = some l₁) (hl₂ : d.language = some l₂)
    (hne : l₁ ≠ l₂) :
    (ArtifactExtractor.stitchArtifacts now [a, b]).length = 1 ∧
      ArtifactExtractor2.stitchArtifacts [c, d] = [c, d] := by
  constructor
  · unfold ArtifactExtractor.stitchArtifacts stitchCore
    rw [if_neg (by simp), groupPairs_const_key _ (ArtifactExtractor.key1 a) [a, b]
      (by simp) (by simp [hk.symm])]
    simp only [List.flatMap_cons, List.flatMap_nil, List.append_nil]
    rw [if_neg (by simp)]
    exact mergeGroup1_length now [a, b] (by simp)
  · have hkey := key2_ne_of_language_ne htitle htype hl₁ hl₂ hne
    exact stitchCore_of_nodup_keys ArtifactExtractor2.key2 ArtifactExtractor2.mergeGroup2
      [c, d] (by simp [hkey])

/-- Witness for C4's amended statement at a concrete python/javascript pair. -/
theorem c4_amended_language_key_witness :
    (ArtifactExtractor.stitchArtifacts ⟨9, "t9"⟩
          [⟨"i1", "script", .code, "a", some "python", ⟨0, "t0"⟩⟩,
           ⟨"i2", "script", .code, "b", some "javascript", ⟨1, "t1"⟩⟩]).length = 1 ∧
      ArtifactExtractor2.stitchArtifacts
          [⟨"i1", "script", "a", .code, some "python", some ⟨0, "t0"⟩, none, none, none⟩,
           ⟨"i2", "script", "b", .code, some "javascript", some ⟨1, "t1"⟩, none, none, none⟩] =
        [⟨"i1", "script", "a", .code, some "python", some ⟨0, "t0"⟩, none, none, none⟩,
         ⟨"i2", "script", "b", .code, some "javascript", some ⟨1, "t1"⟩, none, none, none⟩] :=
  c4_amended_language_key ⟨9, "t9"⟩
    ⟨"i1", "script", .code, "a", some "python", ⟨0, "t0"⟩⟩
    ⟨"i2", "script", .code, "b", some "javascript", ⟨1, "t1"⟩⟩
    ⟨"i1", "script", "a", .code, some "python", some ⟨0, "t0"⟩, none, none, none⟩
    ⟨"i2", "script", "b", .code, some "javascript", some ⟨1, "t1"⟩, none, none, none⟩
    (by decide) (by decide) (by decide) "python" "javascript" (by decide) (by decide)
    (by decide)

/-- Replace all non-overlapping occurrences of `pat` (left to right) by `rep`
(JS `str.replace(/pat/g, rep)` for a literal pattern). Fuel is the input
length, which bounds the number of replacements. -/
def replaceAllPat (pat rep : List Char) : Nat → List Char → List Char
  | 0, l => l
  | fuel + 1, l =>
    match splitAtFirst pat l with
    | none => l
    | some (before, after) => before ++ rep ++ replaceAllPat pat rep fuel after

namespace FilenameHelper

/-- The `INVALID_CHARS_REGEX` class `[<>:"/\\|?*\x00-\x1F]` of
`shared/utils/filenameHelper.ts`. -/
def isInvalidChar (c : Char) : Bool :=
  c = '<' || c = '>' || c = ':' || c = '"' || c = '/' || c = '\\' || c = '|' ||
    c = '?' || c = '*' || c.toNat ≤ 0x1F

/-- The `EXTENSION_MAP` table. -/
def extensionMap : ArtifactType → String
  | .code => "txt"
  | .svg => "svg"
  | .markdown => "md"
  | .mermaid => "mmd"
  | .html => "html"
  | .react => "jsx"
  | .unknown => "txt"

/-- The `LANGUAGE_EXTENSION_MAP` table (`none` for an absent key). -/
def languageExtensionMap : String → Option String
  | "javascript" => some "js"
  | "typescript" => some "ts"
  | "js" => some "js"
  | "ts" => some "ts"
  | "jsx" => some "jsx"
  | "tsx" => some "tsx"
  | "html" => some "html"
  | "css" => some "css"
  | "python" => some "py"
  | "java" => some "java"
  | "c" => some "c"
  | "cpp" => some "cpp"
  | "csharp" => some "cs"
  | "go" => some "go"
  | "rust" => some "rs"
  | "ruby" => some "rb"
  | "php" => some "php"
  | "swift" => some "swift"
  | "kotlin" => some "kt"
  | "json" => some "json"
  | "xml" => some "xml"
  | "yaml" => some "yaml"
  | "markdown" => some "md"
  | "sql" => some "sql"
  | "shell" => some "sh"
  | "bash" => some "sh"
  | "powershell" => some "ps1"
  | "dockerfile" => some "dockerfile"
  | "plaintext" => some "txt"
  | _ => none

/-- The `sanitizeFilename` of this `FilenameHelper`: replace each invalid
character by an underscore; then apply `replace(/[\\s_]+/g, "_")` — whose
character class, as written in the source, contains a literal backslash, the
letter `s` and the underscore (the backslash is doubled inside the regex
literal), not whitespace; then trim and strip leading/trailing underscores,
falling back to "artifact" when nothing remains. -/
def sanitizeFilename (filename : String) : String :=
  let s1 := replaceEachChar isInvalidChar filename.data
  let s2 := collapseRuns (fun c => c = '\\' || c = 's' || c = '_') s1
  let s3 := jsTrim ⟨s2⟩
  let s4 := dropEnds (fun c => c = '_') s3.data
  if s4.isEmpty then "artifact" else ⟨s4⟩

/-- The `getExtension` of this `FilenameHelper`: a language-specific extension
for code artifacts with a known (truthy) language, else the per-type table. -/
def getExtension (artifact : ArtifactState) : String :=
  match artifact.type, artifact.language with
  | .code, some lang =>
    if lang = "" then extensionMap artifact.type
    else
      match languageExtensionMap (toLowerAscii lang) with
      | some e => e
      | none => extensionMap artifact.type
  | _, _ => extensionMap artifact.type

/-- The `getFilename` of the `FilenameHelper` in
`shared/utils/filenameHelper.ts` (lines 261-307). -/
def getFilename (artifact : ArtifactState) (includeTimestamp sanitize : Bool)
    (maxLength : Nat) : String :=
  let filename0 := if artifact.title = "" then "Untitled" else artifact.title
  let filename1 :=
    if includeTimestamp then filename0 ++ "_" ++ isoStamp artifact.timestamp.iso
    else filename0
  let filename2 := if sanitize then sanitizeFilename filename1 else filename1
  let extension := getExtension artifact
  let maxBase := min maxLength 255 - extension.length - 1
  let filename3 :=
    if filename2.length > maxBase then (⟨filename2.data.take maxBase⟩ : String)
    else filename2
  filename3 ++ "." ++ extension

end FilenameHelper

namespace ZipFilenameHelper

/-- The `extensionMap` of the second `FilenameHelper` copy that lives in
`shared/utils/zipCreator.ts`; entries carry the dot, and the `code` entry is
the empty (falsy) string. -/
def extensionMap : ArtifactType → String
  | .code => ""
  | .markdown => ".md"
  | .html => ".html"
  | .svg => ".svg"
  | .mermaid => ".mmd"
  | .react => ".jsx"
  | .unknown => ".txt"

/-- The `languageExtensionMap` of the zipCreator copy. -/
def languageExtensionMap : String → Option String
  | "javascript" => some ".js"
  | "typescript" => some ".ts"
  | "python" => some ".py"
  | "java" => some ".java"
  | "csharp" => some ".cs"
  | "cpp" => some ".cpp"
  | "c" => some ".c"
  | "ruby" => some ".rb"
  | "go" => some ".go"
  | "php" => some ".php"
  | "sql" => some ".sql"
  | "rust" => some ".rs"
  | "swift" => some ".swift"
  | "kotlin" => some ".kt"
  | "scala" => some ".scala"
  | "dart" => some ".dart"
  | "json" => some ".json"
  | "yaml" => some ".yaml"
  | "xml" => some ".xml"
  | "css" => some ".css"
  | "scss" => some ".scss"
  | "less" => some ".less"
  | "bash" => some ".sh"
  | "powershell" => some ".ps1"
  | "plaintext" => some ".txt"
  | _ => none

/-- The `getExtension` of the zipCreator copy: the `|| '.txt'` fallbacks fire
on a missing language entry and on the falsy `""` entry for `code`. -/
def getExtension (artifact : Artifact2) : String :=
  match artifact.type, artifact.language with
  | .code, some lang =>
    if lang = "" then
      let e := extensionMap artifact.type
      if e = "" then ".txt" else e
    else (languageExtensionMap (toLowerAscii lang)).getD ".txt"
  | _, _ =>
    let e := extensionMap artifact.type
    if e = "" then ".txt" else e

/-- Windows-unsafe characters `[<>:"/\\|?*]` (no control range here). -/
def isUnsafeChar (c : Char) : Bool :=
  c = '<' || c = '>' || c = ':' || c = '"' || c = '/' || c = '\\' || c = '|' ||
    c = '?' || c = '*'

/-- The `sanitizeFilename` of the zipCreator copy: replace (or remove) unsafe
characters, collapse whitespace runs to underscores, replace `..` pairs, and
strip leading/trailing dots and dashes. -/
def sanitizeFilename (name : String) (replaceChars : Bool) : String :=
  let s1 :=
    if replaceChars then replaceEachChar isUnsafeChar name.data
    else removeEachChar isUnsafeChar name.data
  let s2 := collapseRuns Char.isWhitespace s1
  let s3 := replaceAllPat "..".data "_".data s2.length s2
  let s4 := (((s3.dropWhile (fun c => c = '.' || c = '-')).reverse.dropWhile
    (fun c => c = '.' || c = '-')).reverse)
  ⟨s4⟩

/-- The `getFilename` of the `FilenameHelper` copy in
`shared/utils/zipCreator.ts` (lines 128-217). -/
def getFilename (artifact : Artifact2) (includeTimestamp replaceInvalidChars : Bool)
    (maxLength : Nat) : String :=
  let filename0 := if artifact.title = "" then "untitled" else artifact.title
  let filename1 :=
    if includeTimestamp then
      match artifact.timestamp with
      | some d => filename0 ++ "_" ++ isoStamp d.iso
      | none => filename0
    else filename0
  let filename2 :=
    if replaceInvalidChars then sanitizeFilename filename1 true
    else sanitizeFilename filename1 false
  let extension := getExtension artifact
  let maxBase := maxLength - extension.length
  let filename3 :=
    if filename2.length > maxBase then (⟨filename2.data.take maxBase⟩ : String)
    else filename2
  filename3 ++ extension

end ZipFilenameHelper

/-- C6 counterexample: `getFilename({title: "My Chart!", type: svg},
includeTimestamp = false, sanitize = true)` does not return "My_Chart.svg" —
the `'!'` is not in the invalid-character set and, in the
`filenameHelper.ts` copy, the whitespace-collapse regex class is mis-escaped
(`[\\s_]` matches backslash, `s`, `_`), so the space survives too. -/
theorem c6_counterexample :
    FilenameHelper.getFilename
        ⟨"id1", "My Chart!", .svg, "<svg/>", none, ⟨0, "2024-01-01T00:00:00.000Z"⟩⟩
        false true 255 ≠ "My_Chart.svg" := by decide

/-- C6 (amended): on that artifact the `filenameHelper.ts` `getFilename`
returns "My Chart!.svg" (neither `'!'` nor the space is replaced) and the
`zipCreator.ts` copy returns "My_Chart!.svg" (space replaced, `'!'` kept); in
both results exactly one dot separates base name from extension. -/
theorem c6_amended_my_chart_filename :
    FilenameHelper.getFilename
          ⟨"id1", "My Chart!", .svg, "<svg/>", none, ⟨0, "2024-01-01T00:00:00.000Z"⟩⟩
          false true 255 = "My Chart!.svg" ∧
      ZipFilenameHelper.getFilename
          ⟨"id1", "My Chart!", "<svg/>", .svg, none, some ⟨0, "2024-01-01T00:00:00.000Z"⟩,
            none, none, none⟩
          false true 255 = "My_Chart!.svg" ∧
      ("My Chart!.svg" : String).data.count '.' = 1 ∧
      ("My_Chart!.svg" : String).data.count '.' = 1 := by decide

/-- Check that `s` starts with `pre` (JS `String.prototype.startsWith`,
executable in the kernel). -/
def strStartsWith (pre s : String) : Bool :=
  (dropPre pre.data s.data).isSome

/-- A DOM element handle, modelled by the reads the extractors perform on it. -/
structure Element where
  textContent : String
  innerHTML : String
  outerHTML : String
  classList : List String
deriving DecidableEq, Repr

/-- An artifact container element, modelled by the query results the two
extractors read from it: each `querySelector` the source performs becomes a
field (`none` when the selector matches nothing). -/
structure Container where
  titleEl : Option Element
  preCode : Option Element
  svgEl : Option Element
  dataTypeHtml : Option Element
  dataTypeReact : Option Element
  mermaidEl : Option Element
  divEl : Option Element
  classList : List String
  textContent : String
  innerHTML : String
deriving DecidableEq, Repr

namespace ArtifactExtractor

/-- The `determineTypeAndContent` of the first `ArtifactExtractor`
(`shared/utils/filenameHelper.ts` lines 83-140): first match wins in the order
code, svg, html marker, react marker, mermaid marker, markdown fallback. A
language class `language-x` yields language `x` (the `replace("language-", "")`
removes the leading match). -/
def determineTypeAndContent (container : Container) :
    ArtifactType × String × Option String :=
  match container.preCode with
  | some codeElement =>
    let langClass := codeElement.classList.find? (fun cls => strStartsWith "language-" cls)
    let language := langClass.map (fun cls => (⟨cls.data.drop 9⟩ : String))
    (.code, codeElement.textContent, language)
  | none =>
    match container.svgEl with
    | some svgElement => (.svg, svgElement.outerHTML, none)
    | none =>
      match container.dataTypeHtml with
      | some htmlElement => (.html, htmlElement.innerHTML, none)
      | none =>
        match container.dataTypeReact with
        | some reactElement => (.react, reactElement.textContent, none)
        | none =>
          match container.mermaidEl with
          | some mermaidElement => (.mermaid, mermaidElement.textContent, none)
          | none => (.markdown, container.innerHTML, none)

/-- The `extractArtifactFromContainer` of the first `ArtifactExtractor`: a
container handle whose reads throw (`Except.error`) is caught and becomes
`none`; otherwise the artifact record is built, with the positional title
fallback `Artifact ${index + 1}`. `now` models `Date.now()` / `new Date()`. -/
def extractArtifactFromContainer (c : Except String Container) (index : Nat)
    (now : Date) : Option ArtifactState :=
  match c with
  | .error _ => none
  | .ok container =>
    let title :=
      match container.titleEl with
      | some t =>
        let tt := jsTrim t.textContent
        if tt = "" then "Artifact " ++ Nat.repr (index + 1) else tt
      | none => "Artifact " ++ Nat.repr (index + 1)
    let r := determineTypeAndContent container
    some
      { id := "artifact-" ++ Nat.repr now.epochMs ++ "-" ++ Nat.repr index
        title := title
        type := r.1
        content := r.2.1
        language := r.2.2
        timestamp := now }

/-- The `artifactContainers.forEach` of `extractArtifactsFromDOM`: each
container is processed with its positional index; a failed extraction is
logged and skipped, the loop continues. -/
def extractLoop (now : Date) : List (Except String Container) → Nat → List ArtifactState
  | [], _ => []
  | c :: rest, i =>
    match extractArtifactFromContainer c i now with
    | some a => a :: extractLoop now rest (i + 1)
    | none => extractLoop now rest (i + 1)

/-- The `extractArtifactsFromDOM` of the first `ArtifactExtractor`: `none`
models the conversation container not being found; an empty container list is
returned as the empty batch. -/
def extractArtifactsFromDOM (now : Date)
    (found : Option (List (Except String Container))) : List ArtifactState :=
  match found with
  | none => []
  | some cs => if cs.length = 0 then [] else extractLoop now cs 0

end ArtifactExtractor

namespace ArtifactExtractor2

/-- The `extractArtifactFromContainer` of the second `ArtifactExtractor`
(`shared/utils/filenameHelper.ts` lines 443-511): an else-if chain in the
order code, svg, mermaid class marker, react class marker, html class marker,
markdown fallback; `rnd` models the `Math.random()` component of the id. -/
def extractArtifactFromContainer (c : Except String Container) (now : Date)
    (rnd : Nat) : Option Artifact2 :=
  match c with
  | .error _ => none
  | .ok container =>
    let title :=
      match container.titleEl with
      | some t =>
        let tt := jsTrim t.textContent
        if tt = "" then "Untitled Artifact" else tt
      | none => "Untitled Artifact"
    let id := "artifact-" ++ Nat.repr now.epochMs ++ "-" ++ Nat.repr rnd
    match container.preCode with
    | some codeElement =>
      let langClass := codeElement.classList.find? (fun cls => strStartsWith "language-" cls)
      let language := langClass.map (fun cls => (⟨cls.data.drop 9⟩ : String))
      some ⟨id, title, codeElement.textContent, .code, language, some now, none, none, none⟩
    | none =>
      match container.svgEl with
      | some svgElement =>
        some ⟨id, title, svgElement.outerHTML, .svg, none, some now, none, none, none⟩
      | none =>
        if container.classList.contains "mermaid-artifact" then
          some ⟨id, title, container.textContent, .mermaid, none, some now, none, none, none⟩
        else if container.classList.contains "react-artifact" then
          some ⟨id, title, container.textContent, .react, none, some now, none, none, none⟩
        else if container.classList.contains "html-artifact" then
          some ⟨id, title,
            (match container.divEl with | some d => d.innerHTML | none => ""),
            .html, none, some now, none, none, none⟩
        else
          some ⟨id, title, container.textContent, .markdown, none, some now, none, none, none⟩

/-- The container loop of the second `extractArtifactsFromDOM`: failed
extractions are logged (with the index) and skipped. -/
def extractLoop2 (now : Date) (rnd : Nat) : List (Except String Container) → List Artifact2
  | [] => []
  | c :: rest =>
    match extractArtifactFromContainer c now rnd with
    | some a => a :: extractLoop2 now rnd rest
    | none => extractLoop2 now rnd rest

/-- The second `extractArtifactsFromDOM`: `none` models the conversation
container not being found. -/
def extractArtifactsFromDOM (now : Date) (rnd : Nat)
    (found : Option (List (Except String Container))) : List Artifact2 :=
  match found with
  | none => []
  | some cs => extractLoop2 now rnd cs

end ArtifactExtractor2

/-- Priority classifier written from the spec's words (section 4.1): code
block, then svg, then html marker, then react marker, then mermaid marker,
then the markdown fallback. -/
def specPriorityType (c : Container) : ArtifactType :=
  if c.preCode.isSome then .code
  else if c.svgEl.isSome then .svg
  else if c.dataTypeHtml.isSome then .html
  else if c.dataTypeReact.isSome then .react
  else if c.mermaidEl.isSome then .mermaid
  else .markdown

/-- Priority order the second extractor actually implements: code, svg, then
mermaid before react before html (as CSS class markers), then markdown. -/
def v2OrderType (c : Container) : ArtifactType :=
  if c.preCode.isSome then .code
  else if c.svgEl.isSome then .svg
  else if c.classList.contains "mermaid-artifact" then .mermaid
  else if c.classList.contains "react-artifact" then .react
  else if c.classList.contains "html-artifact" then .html
  else .markdown

/-- C7 counterexample: a container carrying both the html marker and the
mermaid marker is classified `mermaid` by the second extractor, not `html` as
the claimed priority order (html before react before mermaid) requires. -/
theorem c7_counterexample :
    (ArtifactExtractor2.extractArtifactFromContainer
          (.ok ⟨none, none, none, none, none, none, none,
            ["html-artifact", "mermaid-artifact"], "x", "x"⟩) ⟨0, "t0"⟩ 0).map
        Artifact2.type = some ArtifactType.mermaid ∧
      ArtifactType.mermaid ≠ ArtifactType.html := by decide

/-- C7 (amended): the first extractor classifies every container by first
match in the order code, svg, html, react, mermaid, markdown-fallback; the
second extractor uses the order code, svg, mermaid, react, html,
markdown-fallback (its markers being CSS classes); neither ever classifies a
container as `unknown`. -/
theorem specPriorityType_ne_unknown (c : Container) :
    specPriorityType c ≠ ArtifactType.unknown := by
  unfold specPriorityType
  split_ifs <;> simp

theorem v2OrderType_ne_unknown (c : Container) :
    v2OrderType c ≠ ArtifactType.unknown := by
  unfold v2OrderType
  split_ifs <;> simp

theorem determineTypeAndContent_eq_spec (c : Container) :
    (ArtifactExtractor.determineTypeAndContent c).1 = specPriorityType c := by
  obtain ⟨tEl, pc, svg, dth, dtr, mer, dv, cls, tc, ih⟩ := c
  cases pc <;> cases svg <;> cases dth <;> cases dtr <;> cases mer <;> rfl

theorem extract2_type_eq_order (c : Container) (now : Date) (rnd : Nat) :
    (ArtifactExtractor2.extractArtifactFromContainer (.ok c) now rnd).map
      Artifact2.type = some (v2OrderType c) := by
  obtain ⟨tEl, pc, svg, dth, dtr, mer, dv, cls, tc, ih⟩ := c
  cases pc <;> cases svg <;>
    simp only [ArtifactExtractor2.extractArtifactFromContainer, v2OrderType,
      Option.isSome, Option.map] <;>
    first
    | rfl
    | (cases hm : cls.contains "mermaid-artifact" <;>
       cases hr : cls.contains "react-artifact" <;>
       cases hh : cls.contains "html-artifact" <;>
       simp [hm, hr, hh])

theorem c7_amended_classification (c : Container) (now : Date) (rnd : Nat) :
    (ArtifactExtractor.determineTypeAndContent c).1 = specPriorityType c ∧
      (ArtifactExtractor.determineTypeAndContent c).1 ≠ ArtifactType.unknown ∧
      (ArtifactExtractor2.extractArtifactFromContainer (.ok c) now rnd).map
          Artifact2.type = some (v2OrderType c) ∧
      some ArtifactType.unknown ≠
        (ArtifactExtractor2.extractArtifactFromContainer (.ok c) now rnd).map
          Artifact2.type := by
  have h1 := determineTypeAndContent_eq_spec c
  have h3 := extract2_type_eq_order c now rnd
  refine ⟨h1, ?_, h3, ?_⟩
  · rw [h1]
    exact specPriorityType_ne_unknown c
  · rw [h3]
    intro heq
    exact v2OrderType_ne_unknown c (Option.some.inj heq).symm

/-- C8: a container whose extraction throws is skipped and does not abort the
extraction of the remaining containers — in the first extractor the survivors
keep their positional indices; the second extractor likewise just skips — and
extraction over a batch with zero qualifying containers (all throwing, an
empty list, or no conversation container at all) returns an empty list, not
an error. -/
theorem c8_failing_container_skipped (now : Date) (rnd : Nat)
    (pre post cs : List (Except String Container)) (msg : String) (i : Nat)
    (hall : ∀ x ∈ cs, x.isOk = false) :
    ArtifactExtractor.extractLoop now (pre ++ Except.error msg :: post) i =
        ArtifactExtractor.extractLoop now pre i ++
          ArtifactExtractor.extractLoop now post (i + pre.length + 1) ∧
      ArtifactExtractor2.extractLoop2 now rnd (pre ++ Except.error msg :: post) =
        ArtifactExtractor2.extractLoop2 now rnd pre ++
          ArtifactExtractor2.extractLoop2 now rnd post ∧
      ArtifactExtractor.extractArtifactsFromDOM now (some cs) = [] ∧
      ArtifactExtractor.extractArtifactsFromDOM now none = [] ∧
      ArtifactExtractor2.extractArtifactsFromDOM now rnd (some cs) = [] ∧
      ArtifactExtractor2.extractArtifactsFromDOM now rnd none = [] := by
  have hloop1 : ∀ (pre : List (Except String Container)) (i : Nat),
      ArtifactExtractor.extractLoop now (pre ++ Except.error msg :: post) i =
        ArtifactExtractor.extractLoop now pre i ++
          ArtifactExtractor.extractLoop now post (i + pre.length + 1) := by
    intro pre
    induction pre with
    | nil =>
      intro i
      simp [ArtifactExtractor.extractLoop, ArtifactExtractor.extractArtifactFromContainer]
    | cons c rest ih =>
      intro i
      simp only [List.cons_append, ArtifactExtractor.extractLoop]
      cases ArtifactExtractor.extractArtifactFromContainer c i now <;>
        simp [ih (i + 1)] <;> congr 1 <;> omega
  have hloop2 : ∀ pre : List (Except String Container),
      ArtifactExtractor2.extractLoop2 now rnd (pre ++ Except.error msg :: post) =
        ArtifactExtractor2.extractLoop2 now rnd pre ++
          ArtifactExtractor2.extractLoop2 now rnd post := by
    intro pre
    induction pre with
    | nil =>
      simp [ArtifactExtractor2.extractLoop2, ArtifactExtractor2.extractArtifactFromContainer]
    | cons c rest ih =>
      simp only [List.cons_append, ArtifactExtractor2.extractLoop2]
      cases ArtifactExtractor2.extractArtifactFromContainer c now rnd <;> simp [ih]
  have hempty1 : ∀ (cs : List (Except String Container)) (i : Nat),
      (∀ x ∈ cs, x.isOk = false) → ArtifactExtractor.extractLoop now cs i = [] := by
    intro cs
    induction cs with
    | nil => intro i _; rfl
    | cons c rest ih =>
      intro i hall'
      have hc := hall' c (List.mem_cons_self _ _)
      cases c with
      | error e =>
        simp only [ArtifactExtractor.extractLoop, ArtifactExtractor.extractArtifactFromContainer]
        exact ih (i + 1) (fun x hx => hall' x (List.mem_cons_of_mem _ hx))
      | ok container => simp [Except.isOk, Except.toBool] at hc
  have hempty2 : ∀ cs : List (Except String Container),
      (∀ x ∈ cs, x.isOk = false) → ArtifactExtractor2.extractLoop2 now rnd cs = [] := by
    intro cs
    induction cs with
    | nil => intro _; rfl
    | cons c rest ih =>
      intro hall'
      have hc := hall' c (List.mem_cons_self _ _)
      cases c with
      | error e =>
        simp only [ArtifactExtractor2.extractLoop2,
          ArtifactExtractor2.extractArtifactFromContainer]
        exact ih (fun x hx => hall' x (List.mem_cons_of_mem _ hx))
      | ok container => simp [Except.isOk, Except.toBool] at hc
  refine ⟨hloop1 pre i, hloop2 pre, ?_, rfl, ?_, rfl⟩
  · show (if cs.length = 0 then [] else ArtifactExtractor.extractLoop now cs 0) = []
    split
    · rfl
    · exact hempty1 cs 0 hall
  · show ArtifactExtractor2.extractLoop2 now rnd cs = []
    exact hempty2 cs hall

/-- Witness for C8 at a one-good-one-bad-one-good batch and an all-failing
batch. -/
theorem c8_failing_container_skipped_witness :
    (∀ x ∈ [(Except.error "boom" : Except String Container)], x.isOk = false) ∧
      ArtifactExtractor.extractLoop ⟨0, "t0"⟩
          ([Except.ok ⟨none, none, none, none, none, none, none, [], "x", "x"⟩] ++
            Except.error "boom" ::
              [Except.ok ⟨none, none, none, none, none, none, none, [], "y", "y"⟩]) 0 =
        ArtifactExtractor.extractLoop ⟨0, "t0"⟩
            [Except.ok ⟨none, none, none, none, none, none, none, [], "x", "x"⟩] 0 ++
          ArtifactExtractor.extractLoop ⟨0, "t0"⟩
            [Except.ok ⟨none, none, none, none, none, none, none, [], "y", "y"⟩] 2 ∧
      ArtifactExtractor.extractArtifactsFromDOM ⟨0, "t0"⟩
        (some [Except.error "boom"]) = [] :=
  ⟨by decide,
    (c8_failing_container_skipped ⟨0, "t0"⟩ 0
      [Except.ok ⟨none, none, none, none, none, none, none, [], "x", "x"⟩]
      [Except.ok ⟨none, none, none, none, none, none, none, [], "y", "y"⟩]
      [Except.error "boom"] "boom" 0 (by decide)).1,
    (c8_failing_container_skipped ⟨0, "t0"⟩ 0
      [Except.ok ⟨none, none, none, none, none, none, none, [], "x", "x"⟩]
      [Except.ok ⟨none, none, none, none, none, none, none, [], "y", "y"⟩]
      [Except.error "boom"] "boom" 0 (by decide)).2.2.1⟩

theorem toDigitsCore_eq_digits :
    ∀ (fuel n : Nat) (acc : List Char), 0 < n → n < fuel →
      Nat.toDigitsCore 10 fuel n acc =
        ((Nat.digits 10 n).map Nat.digitChar).reverse ++ acc := by
  intro fuel
  induction fuel with
  | zero => intro n acc _ h2; omega
  | succ f ih =>
    intro n acc h1 h2
    rw [Nat.toDigitsCore]
    by_cases hdiv : n / 10 = 0
    · rw [if_pos hdiv]
      have hlt : n < 10 := by
        rcases Nat.div_eq_zero_iff (by norm_num) |>.1 hdiv with h | h
        · omega
        · omega
      rw [Nat.digits_def' (by norm_num : (1:Nat) < 10) h1, hdiv]
      rw [Nat.mod_eq_of_lt hlt]
      simp
    · rw [if_neg hdiv]
      have hpos : 0 < n / 10 := Nat.pos_of_ne_zero hdiv
      have hlt : n / 10 < f := by
        have h10 : 10 ≤ n := by
          by_contra hc
          exact hdiv (Nat.div_eq_of_lt (by omega))
        have := Nat.div_lt_self h1 (by norm_num : (1:Nat) < 10)
        omega
      rw [ih (n / 10) (Nat.digitChar (n % 10) :: acc) hpos hlt]
      rw [Nat.digits_def' (by norm_num : (1:Nat) < 10) h1]
      simp

theorem repr_eq_digits (n : Nat) (h : 0 < n) :
    Nat.repr n = ⟨((Nat.digits 10 n).map Nat.digitChar).reverse⟩ := by
  unfold Nat.repr Nat.toDigits
  rw [toDigitsCore_eq_digits (n + 1) n [] h (by omega)]
  simp [List.asString]

theorem digitChar_inj_lt :
    ∀ d₁, d₁ < 10 → ∀ d₂, d₂ < 10 → Nat.digitChar d₁ = Nat.digitChar d₂ → d₁ = d₂ := by
  decide

theorem map_digitChar_inj :
    ∀ l₁ l₂ : List Nat, (∀ d ∈ l₁, d < 10) → (∀ d ∈ l₂, d < 10) →
      l₁.map Nat.digitChar = l₂.map Nat.digitChar → l₁ = l₂ := by
  intro l₁
  induction l₁ with
  | nil =>
    intro l₂ _ _ h
    cases l₂ with
    | nil => rfl
    | cons b bs => simp at h
  | cons a as ih =>
    intro l₂ h₁ h₂ h
    cases l₂ with
    | nil => simp at h
    | cons b bs =>
      simp only [List.map_cons, List.cons.injEq] at h
      have ha := h₁ a (List.mem_cons_self _ _)
      have hb := h₂ b (List.mem_cons_self _ _)
      rw [digitChar_inj_lt a ha b hb h.1,
        ih bs (fun d hd => h₁ d (List.mem_cons_of_mem _ hd))
          (fun d hd => h₂ d (List.mem_cons_of_mem _ hd)) h.2]

theorem natRepr_inj {m n : Nat} (h : Nat.repr m = Nat.repr n) : m = n := by
  have hdig : ∀ k : Nat, 0 < k → ∀ d ∈ Nat.digits 10 k, d < 10 := by
    intro k _ d hd
    exact Nat.digits_lt_base (by norm_num) hd
  rcases Nat.eq_zero_or_pos m with hm | hm <;> rcases Nat.eq_zero_or_pos n with hn | hn
  · omega
  · exfalso
    subst hm
    rw [repr_eq_digits n hn] at h
    have hdata := congrArg String.data h
    simp only at hdata
    have hrev := congrArg List.reverse hdata
    simp only [List.reverse_reverse] at hrev
    have : ([0] : List Nat).map Nat.digitChar = (Nat.digits 10 n).map Nat.digitChar := by
      simpa using hrev
    have hd := map_digitChar_inj [0] (Nat.digits 10 n) (by simp) (hdig n hn) this
    have := Nat.ofDigits_digits 10 n
    rw [← hd] at this
    simp [Nat.ofDigits] at this
    omega
  · exfalso
    subst hn
    rw [repr_eq_digits m hm] at h
    have hdata := congrArg String.data h
    simp only at hdata
    have hrev := congrArg List.reverse hdata
    simp only [List.reverse_reverse] at hrev
    have : (Nat.digits 10 m).map Nat.digitChar = ([0] : List Nat).map Nat.digitChar := by
      simpa using hrev
    have hd := map_digitChar_inj (Nat.digits 10 m) [0] (hdig m hm) (by simp) this
    have := Nat.ofDigits_digits 10 m
    rw [hd] at this
    simp [Nat.ofDigits] at this
    omega
  · rw [repr_eq_digits m hm, repr_eq_digits n hn] at h
    have hdata := congrArg String.data h
    simp only at hdata
    have hrev := congrArg List.reverse hdata
    simp only [List.reverse_reverse] at hrev
    have hd := map_digitChar_inj (Nat.digits 10 m) (Nat.digits 10 n)
      (hdig m hm) (hdig n hn) hrev
    exact Nat.digits.injective 10 hd

theorem strAppend_right_cancel {a b c : String} (h : a ++ c = b ++ c) : a = b := by
  have hd := congrArg String.data h
  rw [String.data_append, String.data_append] at hd
  cases a with
  | mk ad =>
    cases b with
    | mk bd => exact congrArg String.mk (List.append_cancel_right hd)

theorem findName_shape (used : List String) (base : String) :
    ∀ (fuel cnt : Nat), ∃ k, findName used base cnt fuel = base ++ suffixStr k := by
  intro fuel
  induction fuel with
  | zero => intro cnt; exact ⟨cnt, rfl⟩
  | succ f ih =>
    intro cnt
    rw [findName]
    split
    · exact ih (cnt + 1)
    · exact ⟨cnt, rfl⟩

/-- C10: in flat mode (directory structure disabled), every name returned by
`getUniqueFileName` begins with the artifact's 1-based message index followed
by an underscore, before the sanitized title; and the flat candidate names of
two identically titled artifacts from different messages are already distinct
before any collision suffix is applied. -/
theorem c10_flat_name_indexed (title language : String) (i : Nat) (used : List String) :
    (∃ rest, (getUniqueFileName title language i used false).1 =
        Nat.repr (i + 1) ++ "_" ++ sanitizeTitle title ++ rest) ∧
      ∀ j : Nat, i ≠ j → flatFileName title language i ≠ flatFileName title language j := by
  constructor
  · obtain ⟨k, hk⟩ := findName_shape used
      (Nat.repr (i + 1) ++ "_" ++ sanitizeTitle title ++ getFileExtension language)
      (used.length + 1) 0
    refine ⟨getFileExtension language ++ suffixStr k, ?_⟩
    show findName used
      (Nat.repr (i + 1) ++ "_" ++ sanitizeTitle title ++ getFileExtension language)
      0 (used.length + 1) = _
    rw [hk, String.append_assoc]
  · intro j hij heq
    unfold flatFileName at heq
    rw [String.append_assoc, String.append_assoc, String.append_assoc,
      String.append_assoc] at heq
    have h2 := strAppend_right_cancel heq
    have h3 := natRepr_inj h2
    omega

/-- Witness for C10 at a concrete title used in messages 0 and 1. -/
theorem c10_flat_name_indexed_witness :
    (∃ rest, (getUniqueFileName "script" "python" 0 [] false).1 =
        Nat.repr 1 ++ "_" ++ sanitizeTitle "script" ++ rest) ∧
      (0 : Nat) ≠ 1 ∧
      flatFileName "script" "python" 0 ≠ flatFileName "script" "python" 1 :=
  ⟨(c10_flat_name_indexed "script" "python" 0 []).1, by decide,
    (c10_flat_name_indexed "script" "python" 0 []).2 1 (by decide)⟩
